import Mathlib

/-!
Verification of the on-policy policy-gradient training engine of the
NLP_project repository: episode data model, discounted-return computation,
advantage estimation and normalization, the policy update, the trainer's
per-batch ordering, configuration validation, and the outer run loop.

Numeric values (rewards, returns, advantages) are modelled as exact real
numbers; `numpy` float arrays become `List ℝ`.
-/

namespace NLPProject

/-- One rollout's append-only record of (observation, action, reward) triples
(`policy_search/episode.py`; the spec fixes it as parallel sequences of equal
length, with actions being integers). -/
structure Episode (Obs : Type) where
  observations : List Obs
  actions : List ℤ
  rewards : List ℝ

/-- Hyperparameters consumed by the trainer (`config` object as read by
`policy_gradient.py`: `gamma`, `baseline`, `normalize_advantage`,
`num_batches`, `num_episodes_per_batch`, and whether `run_name` is set). -/
structure Config where
  gamma : ℝ
  baseline : Bool
  normalize_advantage : Bool
  num_batches : ℕ
  num_episodes_per_batch : ℕ
  run_name : Bool

/-- The inner loop of `PolicyGradient.get_returns` for one episode:

    G_t = 0
    for t in reversed(range(len(rewards))):
        G_t = rewards[t] + self.config.gamma * G_t
        returns[t] = G_t

`foldr` visits the rewards from the last timestep to the first, exactly as
the `reversed(range(...))` loop does; the accumulator carries the running
`G_t` together with the portion of `returns` filled in so far. -/
def episode_returns (gamma : ℝ) (rewards : List ℝ) : List ℝ :=
  (rewards.foldr
    (fun r acc => (r + gamma * acc.1, (r + gamma * acc.1) :: acc.2))
    ((0 : ℝ), ([] : List ℝ))).2

/-- `PolicyGradient.get_returns`: per-episode discounted returns,
concatenated over the episodes in order (`np.concatenate(all_returns)`). -/
def get_returns {Obs : Type} (gamma : ℝ) (episodes : List (Episode Obs)) : List ℝ :=
  (episodes.map (fun e => episode_returns gamma e.rewards)).flatten

/-- The spec's backward recursion for discounted returns, written as stated
in §4.3: `G[T-1] = r[T-1]`, `G[t] = r[t] + γ * G[t+1]` (the head of the
recursive call is `G[t+1]`, defaulting to 0 past the end of the episode).
Used only to compare `episode_returns` against the spec's words. -/
def returns_spec_rec (gamma : ℝ) : List ℝ → List ℝ
  | [] => []
  | r :: rs => (r + gamma * ((returns_spec_rec gamma rs).headD 0)) :: returns_spec_rec gamma rs

lemma episode_returns_fst_eq_headD (gamma : ℝ) (rewards : List ℝ) :
    (rewards.foldr
      (fun r acc => (r + gamma * acc.1, (r + gamma * acc.1) :: acc.2))
      ((0 : ℝ), ([] : List ℝ))).1
    = (episode_returns gamma rewards).headD 0 := by
  cases rewards with
  | nil => simp [episode_returns]
  | cons r rs => simp [episode_returns]

lemma episode_returns_eq_rec (gamma : ℝ) (rewards : List ℝ) :
    episode_returns gamma rewards = returns_spec_rec gamma rewards := by
  induction rewards with
  | nil => simp [episode_returns, returns_spec_rec]
  | cons r rs ih =>
    simp only [episode_returns, List.foldr_cons, returns_spec_rec]
    rw [← ih]
    rw [episode_returns_fst_eq_headD gamma rs]
    rfl

lemma returns_spec_rec_length (gamma : ℝ) (rs : List ℝ) :
    (returns_spec_rec gamma rs).length = rs.length := by
  induction rs with
  | nil => rfl
  | cons r rs ih => simp [returns_spec_rec, ih]

lemma episode_returns_length (gamma : ℝ) (rs : List ℝ) :
    (episode_returns gamma rs).length = rs.length := by
  rw [episode_returns_eq_rec]; exact returns_spec_rec_length gamma rs

lemma returns_spec_rec_getD (gamma : ℝ) (rs : List ℝ) (t : ℕ)
    (ht : t + 1 < rs.length) :
    (returns_spec_rec gamma rs).getD t 0 =
      rs.getD t 0 + gamma * (returns_spec_rec gamma rs).getD (t + 1) 0 := by
  induction rs generalizing t with
  | nil => simp at ht
  | cons r rs ih =>
    cases t with
    | zero =>
      simp only [returns_spec_rec, List.getD_cons_zero, List.getD_cons_succ]
      cases rs with
      | nil => simp at ht
      | cons r2 rs2 =>
        simp [returns_spec_rec]
    | succ t =>
      simp only [returns_spec_rec, List.getD_cons_succ]
      exact ih t (by simpa using ht)

lemma returns_spec_rec_last (gamma : ℝ) (rs : List ℝ) (h : rs ≠ []) :
    (returns_spec_rec gamma rs).getD (rs.length - 1) 0 =
      rs.getD (rs.length - 1) 0 := by
  induction rs with
  | nil => exact absurd rfl h
  | cons r rs ih =>
    cases rs with
    | nil => simp [returns_spec_rec]
    | cons r2 rs2 =>
      have h2 : r2 :: rs2 ≠ [] := by simp
      have := ih h2
      simpa [returns_spec_rec, List.getD_cons_succ] using this

/-- C1: `get_returns` computes per-episode discounted returns by the backward
recursion `G[T-1] = r[T-1]`, `G[t] = r[t] + γ·G[t+1]`; for a single-step
episode the return is `[r]` for any γ, and for a two-step episode with
rewards `[r0, r1]` the returns are `[r0 + γ·r1, r1]`. -/
theorem get_returns_backward_recursion (gamma : ℝ) (rs : List ℝ) :
    episode_returns gamma rs = returns_spec_rec gamma rs ∧
    (episode_returns gamma rs).length = rs.length ∧
    (∀ r : ℝ, episode_returns gamma [r] = [r]) ∧
    (∀ r0 r1 : ℝ, episode_returns gamma [r0, r1] = [r0 + gamma * r1, r1]) ∧
    (∀ t : ℕ, t + 1 < rs.length →
      (episode_returns gamma rs).getD t 0 =
        rs.getD t 0 + gamma * (episode_returns gamma rs).getD (t + 1) 0) ∧
    (rs ≠ [] →
      (episode_returns gamma rs).getD (rs.length - 1) 0 =
        rs.getD (rs.length - 1) 0) := by
  refine ⟨episode_returns_eq_rec gamma rs, episode_returns_length gamma rs, ?_, ?_, ?_, ?_⟩
  · intro r
    simp [episode_returns_eq_rec, returns_spec_rec]
  · intro r0 r1
    simp [episode_returns_eq_rec, returns_spec_rec]
  · intro t ht
    rw [episode_returns_eq_rec]
    exact returns_spec_rec_getD gamma rs t ht
  · intro h
    rw [episode_returns_eq_rec]
    exact returns_spec_rec_last gamma rs h

/-- C1 witness: the backward recursion evaluated on the concrete episode
with rewards `[3, 4, 5]` and γ = 2, at timestep 0 and at the last timestep. -/
theorem get_returns_backward_recursion_witness :
    ((episode_returns 2 [3, 4, 5]).getD 0 0 =
      ([3, 4, 5] : List ℝ).getD 0 0 + 2 * (episode_returns 2 [3, 4, 5]).getD 1 0) ∧
    (episode_returns 2 [3, 4, 5]).getD (([3, 4, 5] : List ℝ).length - 1) 0 =
      ([3, 4, 5] : List ℝ).getD (([3, 4, 5] : List ℝ).length - 1) 0 :=
  ⟨(get_returns_backward_recursion 2 [3, 4, 5]).2.2.2.2.1 0 (by norm_num),
   (get_returns_backward_recursion 2 [3, 4, 5]).2.2.2.2.2 (by simp)⟩

lemma flatten_segment {α : Type} (L : List (List α)) (i : ℕ) (h : i < L.length) :
    (L.flatten.drop (((L.take i).map List.length).sum)).take L[i].length = L[i] := by
  induction L generalizing i with
  | nil => simp at h
  | cons x L ih =>
    cases i with
    | zero =>
      simp [List.take_left]
    | succ i =>
      have hi : i < L.length := by simpa using h
      have := ih i hi
      simpa [List.flatten_cons, List.drop_append] using this

/-- C2: the batch-level returns vector is the concatenation, in episode
order, of the per-episode return vectors: its length is the total timestep
count, and the segment starting at the sum of the preceding episodes'
lengths, of episode i's length, equals `episode_returns` applied to episode
i's own rewards — so it depends only on that episode's rewards and not on
any other episode in the batch. -/
theorem get_returns_concat_segments {Obs : Type} (gamma : ℝ)
    (episodes : List (Episode Obs)) (i : ℕ) (h : i < episodes.length) :
    (get_returns gamma episodes).length =
      (episodes.map (fun e => e.rewards.length)).sum ∧
    ((get_returns gamma episodes).drop
        (((episodes.take i).map (fun e => e.rewards.length)).sum)).take
      episodes[i].rewards.length
    = episode_returns gamma episodes[i].rewards := by
  constructor
  · unfold get_returns
    rw [List.length_flatten, List.map_map]
    congr 1
    refine List.map_congr_left ?_
    intro e _
    exact episode_returns_length gamma e.rewards
  · have hm : i < (episodes.map (fun e => episode_returns gamma e.rewards)).length := by
      simpa using h
    have hseg := flatten_segment (episodes.map (fun e => episode_returns gamma e.rewards)) i hm
    have hget : (episodes.map (fun e => episode_returns gamma e.rewards))[i] =
        episode_returns gamma episodes[i].rewards := by
      simp
    have hsum : (((episodes.map (fun e => episode_returns gamma e.rewards)).take i).map
        List.length).sum = ((episodes.take i).map (fun e => e.rewards.length)).sum := by
      rw [← List.map_take, List.map_map]
      congr 1
      refine List.map_congr_left ?_
      intro e _
      exact episode_returns_length gamma e.rewards
    unfold get_returns
    rw [hget] at hseg
    rw [episode_returns_length] at hseg
    rw [hsum] at hseg
    exact hseg

/-- C2 witness: a two-episode batch with rewards `[1]` and `[2, 3]` and
γ = 5, evaluated at episode index 1. -/
theorem get_returns_concat_segments_witness :
    (get_returns 5 [Episode.mk ([] : List ℕ) [] [1], Episode.mk [] [] [2, 3]]).length =
      ([Episode.mk ([] : List ℕ) [] [1], Episode.mk [] [] [2, 3]].map
        (fun e => e.rewards.length)).sum ∧
    ((get_returns 5 [Episode.mk ([] : List ℕ) [] [1], Episode.mk [] [] [2, 3]]).drop
        ((([Episode.mk ([] : List ℕ) [] [1], Episode.mk [] [] [2, 3]].take 1).map
          (fun e => e.rewards.length)).sum)).take
      ([Episode.mk ([] : List ℕ) [] [1], Episode.mk [] [] [2, 3]][1].rewards.length)
    = episode_returns 5
        ([Episode.mk ([] : List ℕ) [] [1], Episode.mk [] [] [2, 3]][1].rewards) :=
  get_returns_concat_segments 5
    [Episode.mk ([] : List ℕ) [] [1], Episode.mk [] [] [2, 3]] 1 (by simp)

/-- `np.mean` over a 1-D array, in exact real arithmetic (empty arrays are
never produced by the trainer; Lean's `0 / 0 = 0` stands in for them). -/
noncomputable def np_mean (xs : List ℝ) : ℝ := xs.sum / xs.length

/-- `np.std` over a 1-D array (population standard deviation, numpy's
default `ddof = 0`): the square root of the mean squared deviation. -/
noncomputable def np_std (xs : List ℝ) : ℝ :=
  Real.sqrt (np_mean (xs.map (fun x => (x - np_mean xs) ^ 2)))

/-- `PolicyGradient.normalize_advantage`:
`(advantages - mean_advantage) / (std_advantage + 1e-8)` elementwise. -/
noncomputable def normalize_advantage (advantages : List ℝ) : List ℝ :=
  advantages.map (fun a => (a - np_mean advantages) / (np_std advantages + 1e-8))

lemma sum_map_sub_div (a : List ℝ) (m c : ℝ) :
    (a.map (fun x => (x - m) / c)).sum = (a.sum - a.length * m) / c := by
  induction a with
  | nil => simp
  | cons x xs ih =>
    simp only [List.map_cons, List.sum_cons, ih, List.length_cons]
    push_cast
    ring

lemma sum_map_div (a : List ℝ) (f : ℝ → ℝ) (c : ℝ) :
    (a.map (fun x => f x / c)).sum = (a.map f).sum / c := by
  induction a with
  | nil => simp
  | cons x xs ih => simp [ih, add_div]

lemma length_cast_ne_zero {a : List ℝ} (hne : a ≠ []) : (a.length : ℝ) ≠ 0 := by
  have : 0 < a.length := List.length_pos.mpr hne
  exact_mod_cast Nat.pos_iff_ne_zero.mp this

lemma np_mean_map_sub_div (a : List ℝ) (m c : ℝ) (hne : a ≠ []) :
    np_mean (a.map (fun x => (x - m) / c)) = (np_mean a - m) / c := by
  unfold np_mean
  rw [List.length_map, sum_map_sub_div]
  have hn := length_cast_ne_zero hne
  field_simp
  ring

lemma np_mean_map_div (a : List ℝ) (f : ℝ → ℝ) (c : ℝ) :
    np_mean (a.map (fun x => f x / c)) = np_mean (a.map f) / c := by
  unfold np_mean
  rw [List.length_map, List.length_map, sum_map_div, div_right_comm]

lemma np_mean_nonneg (a : List ℝ) (h : ∀ x ∈ a, 0 ≤ x) : 0 ≤ np_mean a :=
  div_nonneg (List.sum_nonneg h) (Nat.cast_nonneg _)

lemma np_std_nonneg (a : List ℝ) : 0 ≤ np_std a := Real.sqrt_nonneg _

/-- The standard deviation of a list shifted by `m` and divided by `c > 0`
is the original standard deviation divided by `c`. -/
lemma np_std_map_sub_div (a : List ℝ) (m c : ℝ) (hne : a ≠ []) (hc : 0 < c) :
    np_std (a.map (fun x => (x - m) / c)) = np_std a / c := by
  unfold np_std
  rw [np_mean_map_sub_div a m c hne, List.map_map]
  have hcongr : (a.map (fun x => ((x - m) / c - (np_mean a - m) / c) ^ 2))
      = a.map (fun x => ((x - np_mean a) ^ 2) / c ^ 2) := by
    refine List.map_congr_left ?_
    intro x _
    rw [div_sub_div_same, ← div_pow]
    ring_nf
  have hgoal : (Function.comp (fun y => (y - (np_mean a - m) / c) ^ 2)
      (fun x => (x - m) / c)) = fun x => ((x - m) / c - (np_mean a - m) / c) ^ 2 := rfl
  rw [hgoal, hcongr, np_mean_map_div a (fun x => (x - np_mean a) ^ 2) (c ^ 2)]
  have hV : 0 ≤ np_mean (a.map fun x => (x - np_mean a) ^ 2) := by
    refine np_mean_nonneg _ ?_
    intro y hy
    rcases List.mem_map.mp hy with ⟨x, _, rfl⟩
    exact sq_nonneg _
  rw [Real.sqrt_div hV, Real.sqrt_sq hc.le]

lemma np_mean_of_const (a : List ℝ) (c : ℝ) (hne : a ≠ []) (hc : ∀ x ∈ a, x = c) :
    np_mean a = c := by
  have hsum : a.sum = a.length * c := by
    induction a with
    | nil => simp
    | cons x xs ih =>
      have hx : x = c := hc x (by simp)
      rcases List.eq_nil_or_concat xs with h | _
      · subst h; simp [hx]
      · have hxs : xs.sum = xs.length * c := by
          rcases xs with _ | ⟨y, ys⟩
          · simp
          · exact ih (by simp) (fun z hz => hc z (List.mem_cons_of_mem x hz))
        simp [hx, hxs, List.length_cons]
        ring
  unfold np_mean
  rw [hsum]
  exact mul_div_cancel_left₀ c (length_cast_ne_zero hne)

/-- C7: on an advantage vector whose entries are all identical (zero
variance), `normalize_advantage` divides by the strictly positive quantity
`std + 1e-8` and every output entry is the finite value 0. -/
theorem normalize_advantage_zero_variance (a : List ℝ) (c : ℝ)
    (hc : ∀ x ∈ a, x = c) :
    0 < np_std a + 1e-8 ∧ ∀ y ∈ normalize_advantage a, y = 0 := by
  constructor
  · have h1 : (0:ℝ) < 1e-8 := by norm_num
    have h2 := np_std_nonneg a
    linarith
  · intro y hy
    rcases List.mem_map.mp hy with ⟨x, hx, rfl⟩
    have hne : a ≠ [] := by
      intro h
      rw [h] at hx
      simp at hx
    rw [hc x hx, np_mean_of_const a c hne hc, sub_self, zero_div]

/-- C7 witness: the constant advantage vector `[5, 5, 5]`. -/
theorem normalize_advantage_zero_variance_witness :
    0 < np_std [5, 5, 5] + 1e-8 ∧ ∀ y ∈ normalize_advantage [5, 5, 5], y = 0 :=
  normalize_advantage_zero_variance [5, 5, 5] 5 (by
    intro x hx
    simpa using hx)

/-- C6: `normalize_advantage` maps `a` to `(a - mean(a)) / (std(a) + 1e-8)`;
when the standard deviation is nonzero the result has mean exactly 0 and
standard deviation exactly `std(a) / (std(a) + 1e-8)` in exact arithmetic. -/
theorem normalize_advantage_mean_std (a : List ℝ) (hσ : np_std a ≠ 0) :
    normalize_advantage a =
      a.map (fun x => (x - np_mean a) / (np_std a + 1e-8)) ∧
    np_mean (normalize_advantage a) = 0 ∧
    np_std (normalize_advantage a) = np_std a / (np_std a + 1e-8) := by
  have hne : a ≠ [] := by
    intro h
    apply hσ
    rw [h]
    simp [np_std, np_mean]
  have hc : (0:ℝ) < np_std a + 1e-8 := by
    have h1 : (0:ℝ) < 1e-8 := by norm_num
    have h2 := np_std_nonneg a
    linarith
  refine ⟨rfl, ?_, ?_⟩
  · show np_mean (a.map (fun x => (x - np_mean a) / (np_std a + 1e-8))) = 0
    rw [np_mean_map_sub_div a _ _ hne, sub_self, zero_div]
  · show np_std (a.map (fun x => (x - np_mean a) / (np_std a + 1e-8)))
      = np_std a / (np_std a + 1e-8)
    exact np_std_map_sub_div a (np_mean a) (np_std a + 1e-8) hne hc

/-- C6 witness: the advantage vector `[0, 2]`, whose standard deviation is
exactly 1. -/
theorem normalize_advantage_mean_std_witness :
    normalize_advantage [0, 2] =
      ([0, 2] : List ℝ).map (fun x => (x - np_mean [0, 2]) / (np_std [0, 2] + 1e-8)) ∧
    np_mean (normalize_advantage [0, 2]) = 0 ∧
    np_std (normalize_advantage [0, 2]) = np_std [0, 2] / (np_std [0, 2] + 1e-8) :=
  normalize_advantage_mean_std [0, 2] (by
    have h2 : np_mean (([0, 2] : List ℝ).map (fun x => (x - np_mean [0, 2]) ^ 2)) = 1 := by
      unfold np_mean
      simp only [List.map_cons, List.map_nil, List.sum_cons, List.sum_nil,
        List.length_cons, List.length_nil]
      norm_num
    have h : np_std [0, 2] = 1 := by
      unfold np_std
      rw [h2]
      exact Real.sqrt_one
    rw [h]
    norm_num)

/-- Modelled from the spec: `BaselineNetwork.calculate_advantage` — the file
`policy_search/baseline_network.py` is not under src; per spec §4.4 the
baseline computes `returns − baseline.predict(observations)` elementwise,
the prediction depending on the current baseline parameters `θ`. -/
def baseline_calculate_advantage {Θ Obs : Type} (predict : Θ → Obs → ℝ)
    (θ : Θ) (returns : List ℝ) (observations : List Obs) : List ℝ :=
  List.zipWith (fun g o => g - predict θ o) returns observations

/-- `PolicyGradient.calculate_advantage`: baseline subtraction when
`config.baseline` is set (else the returns pass through unchanged), then
optional normalization when `config.normalize_advantage` is set. -/
noncomputable def calculate_advantage {Θ Obs : Type} (cfg : Config)
    (predict : Θ → Obs → ℝ) (θ : Θ)
    (returns : List ℝ) (observations : List Obs) : List ℝ :=
  let advantages :=
    if cfg.baseline then baseline_calculate_advantage predict θ returns observations
    else returns
  if cfg.normalize_advantage then normalize_advantage advantages else advantages

/-- C5: with baseline disabled and advantage normalization disabled,
`calculate_advantage` returns the returns vector unchanged. -/
theorem calculate_advantage_identity {Θ Obs : Type} (cfg : Config)
    (predict : Θ → Obs → ℝ) (θ : Θ) (returns : List ℝ) (observations : List Obs)
    (hb : cfg.baseline = false) (hn : cfg.normalize_advantage = false) :
    calculate_advantage cfg predict θ returns observations = returns := by
  unfold calculate_advantage
  rw [hb, hn]
  simp

/-- C5 witness: a configuration with baseline and normalization off, on the
returns vector `[1, 2]`. -/
theorem calculate_advantage_identity_witness :
    calculate_advantage ⟨1, false, false, 1, 1, false⟩
      (fun (_ : ℕ) (_ : ℕ) => (0:ℝ)) 0 [1, 2] [0, 0] = [1, 2] :=
  calculate_advantage_identity ⟨1, false, false, 1, 1, false⟩
    (fun _ _ => (0:ℝ)) 0 [1, 2] [0, 0] rfl rfl

/-- Calls made to the torch optimizer during one update pass. -/
inductive OptimizerOp
  | zero_grad
  | backward
  | step
deriving DecidableEq

/-- `PolicyGradient.update_policy`: the log-probabilities of the taken
actions come from the (external, opaque) policy network, so they enter the
model as a vector aligned with the advantages; the loss is
`-(log_probs * advantages).mean()` and the optimizer is driven as
`zero_grad`, `backward`, `step`.  The result pairs the loss value with the
ordered trace of optimizer calls made for the batch. -/
noncomputable def update_policy (log_probs advantages : List ℝ) :
    ℝ × List OptimizerOp :=
  (-np_mean (List.zipWith (fun l a => l * a) log_probs advantages),
   [OptimizerOp.zero_grad, OptimizerOp.backward, OptimizerOp.step])

lemma zipWith_mul_sum (lp adv : List ℝ) (h : lp.length = adv.length) :
    (List.zipWith (fun l a => l * a) lp adv).sum =
      ∑ i in Finset.range lp.length, lp.getD i 0 * adv.getD i 0 := by
  induction lp generalizing adv with
  | nil => simp
  | cons x xs ih =>
    cases adv with
    | nil => simp at h
    | cons y ys =>
      simp only [List.zipWith_cons_cons, List.sum_cons]
      rw [ih ys (by simpa using h), List.length_cons, Finset.sum_range_succ']
      simp only [List.getD_cons_succ, List.getD_cons_zero]
      ring

/-- C3: `update_policy` computes the loss as the negative mean over all
batch timesteps of log-probability times advantage, and performs exactly
one gradient-descent step (a single `zero_grad` / `backward` / `step`
sequence) per batch. -/
theorem update_policy_loss_and_single_step (lp adv : List ℝ)
    (hlen : lp.length = adv.length) :
    (update_policy lp adv).1 =
      -((∑ i in Finset.range lp.length, lp.getD i 0 * adv.getD i 0) / lp.length) ∧
    (update_policy lp adv).2.count OptimizerOp.step = 1 ∧
    (update_policy lp adv).2 =
      [OptimizerOp.zero_grad, OptimizerOp.backward, OptimizerOp.step] := by
  refine ⟨?_, by rfl, rfl⟩
  show -np_mean (List.zipWith (fun l a => l * a) lp adv) = _
  unfold np_mean
  rw [zipWith_mul_sum lp adv hlen, List.length_zipWith, ← hlen, min_self]

/-- C3 witness: log-probabilities `[1, 2]` against advantages `[3, 4]`. -/
theorem update_policy_loss_and_single_step_witness :
    (update_policy [1, 2] [3, 4]).1 =
      -((∑ i in Finset.range ([1, 2] : List ℝ).length,
          ([1, 2] : List ℝ).getD i 0 * ([3, 4] : List ℝ).getD i 0) /
        ([1, 2] : List ℝ).length) ∧
    (update_policy [1, 2] [3, 4]).2.count OptimizerOp.step = 1 ∧
    (update_policy [1, 2] [3, 4]).2 =
      [OptimizerOp.zero_grad, OptimizerOp.backward, OptimizerOp.step] :=
  update_policy_loss_and_single_step [1, 2] [3, 4] rfl

/-- The trainer's mutable parameter state: the policy parameters and the
baseline parameters (`self.policy` and `self.baseline_network`). -/
structure TrainerState (Θ Pi : Type) where
  policyParams : Pi
  baselineParams : Θ

/-- `PolicyGradient.merge_episodes_to_batch`: concatenate observations and
actions over the episodes, compute returns via `get_returns`, compute the
advantages from the current baseline parameters via `calculate_advantage`,
and collect per-episode total rewards (`Episode.total_reward` is the sum of
the episode's rewards, per spec §3). -/
noncomputable def merge_episodes_to_batch {Θ Obs : Type} (cfg : Config)
    (predict : Θ → Obs → ℝ) (θ : Θ) (episodes : List (Episode Obs)) :
    List Obs × List ℤ × List ℝ × List ℝ × List ℝ :=
  let observations := (episodes.map (fun e => e.observations)).flatten
  let actions := (episodes.map (fun e => e.actions)).flatten
  let returns := get_returns cfg.gamma episodes
  let advantages := calculate_advantage cfg predict θ returns observations
  let batch_rewards := episodes.map (fun e => e.rewards.sum)
  (observations, actions, returns, advantages, batch_rewards)

/-- One iteration of the loop in `PolicyGradient.train`, with the external
networks abstracted: `predict` is the baseline network's prediction and
`upd_baseline` its gradient step (both modelled from spec §4.4, the
baseline network's file not being under src), and `policy_step` is the
opaque parameter change `update_policy` causes.  The statement order
mirrors the source: `merge_episodes_to_batch` — which computes the
advantages from the baseline parameters held at the start of the batch —
runs first, then `update_baseline` when the baseline is enabled, then
`update_policy` on the advantages the merge produced.  The advantages
passed to `update_policy` are returned alongside the new state. -/
noncomputable def train_iteration {Θ Pi Obs : Type} (cfg : Config)
    (predict : Θ → Obs → ℝ)
    (upd_baseline : Θ → List ℝ → List Obs → Θ)
    (policy_step : Pi → List Obs → List ℤ → List ℝ → Pi)
    (episodes : List (Episode Obs)) (s : TrainerState Θ Pi) :
    TrainerState Θ Pi × List ℝ :=
  let m := merge_episodes_to_batch cfg predict s.baselineParams episodes
  let observations := m.1
  let actions := m.2.1
  let returns := m.2.2.1
  let advantages := m.2.2.2.1
  let newBaseline :=
    if cfg.baseline then upd_baseline s.baselineParams returns observations
    else s.baselineParams
  let newPolicy := policy_step s.policyParams observations actions advantages
  (⟨newPolicy, newBaseline⟩, advantages)

/-- C4: with the baseline enabled, the advantages handed to `update_policy`
in a training iteration are computed from the baseline parameters as they
were at the start of the batch — `calculate_advantage` runs before
`update_baseline` — so they are identical under any substitute baseline
update rule, while the baseline parameters after the iteration are the
start-of-batch ones stepped on this batch's returns. -/
theorem train_iteration_advantage_uses_pre_update_baseline
    {Θ Pi Obs : Type} (cfg : Config) (predict : Θ → Obs → ℝ)
    (u1 u2 : Θ → List ℝ → List Obs → Θ)
    (policy_step : Pi → List Obs → List ℤ → List ℝ → Pi)
    (episodes : List (Episode Obs)) (s : TrainerState Θ Pi)
    (hb : cfg.baseline = true) :
    (train_iteration cfg predict u1 policy_step episodes s).2 =
      calculate_advantage cfg predict s.baselineParams
        (get_returns cfg.gamma episodes)
        ((episodes.map (fun e => e.observations)).flatten) ∧
    (train_iteration cfg predict u1 policy_step episodes s).2 =
      (train_iteration cfg predict u2 policy_step episodes s).2 ∧
    (train_iteration cfg predict u1 policy_step episodes s).1.baselineParams =
      u1 s.baselineParams (get_returns cfg.gamma episodes)
        ((episodes.map (fun e => e.observations)).flatten) := by
  refine ⟨rfl, rfl, ?_⟩
  simp only [train_iteration, merge_episodes_to_batch, hb, if_true]

/-- C4 witness: one single-step episode, a scalar baseline parameter, and
two different baseline update rules. -/
theorem train_iteration_advantage_uses_pre_update_baseline_witness :
    (train_iteration ⟨1, true, false, 1, 1, false⟩ (fun (θ : ℝ) (_ : ℕ) => θ)
      (fun θ r _ => θ + r.sum) (fun (p : ℕ) _ _ _ => p)
      [Episode.mk [0] [0] [1]] ⟨0, 2⟩).2 =
      calculate_advantage ⟨1, true, false, 1, 1, false⟩ (fun (θ : ℝ) (_ : ℕ) => θ)
        ((⟨0, 2⟩ : TrainerState ℝ ℕ)).baselineParams
        (get_returns (1:ℝ) [Episode.mk ([0] : List ℕ) [0] [1]])
        (([Episode.mk ([0] : List ℕ) [0] [1]].map (fun e => e.observations)).flatten) ∧
    (train_iteration ⟨1, true, false, 1, 1, false⟩ (fun (θ : ℝ) (_ : ℕ) => θ)
      (fun θ r _ => θ + r.sum) (fun (p : ℕ) _ _ _ => p)
      [Episode.mk [0] [0] [1]] ⟨0, 2⟩).2 =
    (train_iteration ⟨1, true, false, 1, 1, false⟩ (fun (θ : ℝ) (_ : ℕ) => θ)
      (fun θ _ _ => θ - 1) (fun (p : ℕ) _ _ _ => p)
      [Episode.mk [0] [0] [1]] ⟨0, 2⟩).2 ∧
    (train_iteration ⟨1, true, false, 1, 1, false⟩ (fun (θ : ℝ) (_ : ℕ) => θ)
      (fun θ r _ => θ + r.sum) (fun (p : ℕ) _ _ _ => p)
      [Episode.mk [0] [0] [1]] ⟨0, 2⟩).1.baselineParams =
      (fun (θ : ℝ) (r : List ℝ) (_ : List ℕ) => θ + r.sum)
        ((⟨0, 2⟩ : TrainerState ℝ ℕ)).baselineParams
        (get_returns (1:ℝ) [Episode.mk ([0] : List ℕ) [0] [1]])
        (([Episode.mk ([0] : List ℕ) [0] [1]].map (fun e => e.observations)).flatten) :=
  train_iteration_advantage_uses_pre_update_baseline
    ⟨1, true, false, 1, 1, false⟩ (fun (θ : ℝ) (_ : ℕ) => θ)
    (fun θ r _ => θ + r.sum) (fun θ _ _ => θ - 1) (fun (p : ℕ) _ _ _ => p)
    [Episode.mk [0] [0] [1]] ⟨0, 2⟩ rfl

/-- `PolicyGradient.sample_episodes`: the loop
`for i in range(self.config.num_episodes_per_batch)` appends one episode
per pass.  The environment interaction inside `sample_episode` is external,
so the episode produced by the i-th pass enters the model as
`sample_episode i`; the environment state evolving across passes means
different passes may yield episodes of arbitrary, unrelated lengths. -/
def sample_episodes {Obs : Type} (cfg : Config)
    (sample_episode : ℕ → Episode Obs) : List (Episode Obs) :=
  (List.range cfg.num_episodes_per_batch).map sample_episode

/-- C10: `sample_episodes` returns exactly `config.num_episodes_per_batch`
episodes, whatever episodes (of whatever lengths) the rollouts produce. -/
theorem sample_episodes_count {Obs : Type} (cfg : Config)
    (sample_episode : ℕ → Episode Obs) :
    (sample_episodes cfg sample_episode).length = cfg.num_episodes_per_batch := by
  unfold sample_episodes
  rw [List.length_map, List.length_range]

/-- The training algorithms selectable on the command line
(`ALLOWED_ALGORITHMS = ['pg', 'ppo']` in `src/main.py`). -/
inductive Algorithm
  | pg
  | ppo
deriving DecidableEq

/-- The argparse namespace fields that `validate_namespace` consults. -/
structure CLINamespace where
  algorithm : Algorithm
  baseline : Bool

/-- `validate_namespace` in `src/main.py`:
`assert namespace.baseline, "PPO requires baseline"` when the requested
algorithm is PPO.  A failed Python `assert` raises and aborts the program;
the abort is modelled as `Except.error` carrying the assertion message. -/
def validate_namespace (ns : CLINamespace) : Except String Unit :=
  if ns.algorithm = Algorithm.ppo then
    if ns.baseline then Except.ok () else Except.error "PPO requires baseline"
  else Except.ok ()

/-- The steps the `__main__` block of `src/main.py` performs after
`validate_namespace`, in source order. -/
inductive MainStep
  | seeds_set
  | config_built
  | dataset_created
  | llm_created
  | encoder_created
  | env_constructed
  | algorithm_constructed
  | run_started
deriving DecidableEq

/-- The `__main__` block of `src/main.py`: `validate_namespace` runs right
after argument parsing; only if it passes do seeding, config, dataset, LLM
and encoder construction, `Environment(...)` construction, algorithm
construction and `policy_search_algorithm.run()` follow, in that order. -/
def main_flow (ns : CLINamespace) : Except String (List MainStep) := do
  _ ← validate_namespace ns
  pure [MainStep.seeds_set, MainStep.config_built, MainStep.dataset_created,
    MainStep.llm_created, MainStep.encoder_created, MainStep.env_constructed,
    MainStep.algorithm_constructed, MainStep.run_started]

/-- C8: selecting PPO with the baseline disabled fails validation: the
program aborts with the assertion message, so no step list is ever
produced — in particular no environment is constructed and training never
starts. -/
theorem ppo_without_baseline_rejected (ns : CLINamespace) (evs : List MainStep)
    (halg : ns.algorithm = Algorithm.ppo) (hbase : ns.baseline = false) :
    validate_namespace ns = Except.error "PPO requires baseline" ∧
    main_flow ns = Except.error "PPO requires baseline" ∧
    main_flow ns ≠ Except.ok evs := by
  have hv : validate_namespace ns = Except.error "PPO requires baseline" := by
    unfold validate_namespace
    rw [halg, hbase]
    simp
  have hm : main_flow ns = Except.error "PPO requires baseline" := by
    unfold main_flow
    rw [hv]
    rfl
  refine ⟨hv, hm, ?_⟩
  rw [hm]
  simp

/-- C8 witness: the namespace requesting PPO with `--baseline` absent. -/
theorem ppo_without_baseline_rejected_witness :
    validate_namespace ⟨Algorithm.ppo, false⟩ = Except.error "PPO requires baseline" ∧
    main_flow ⟨Algorithm.ppo, false⟩ = Except.error "PPO requires baseline" ∧
    main_flow ⟨Algorithm.ppo, false⟩ ≠ Except.ok [] :=
  ppo_without_baseline_rejected ⟨Algorithm.ppo, false⟩ [] rfl rfl

/-- Events observable from `PolicyGradient.run` and its `wandb_context`:
the two log lines, the wandb session management, the execution of `train`,
and the error log emitted by the `except` clause. -/
inductive RunEvent (E : Type)
  | start_log
  | wandb_setup
  | train_run
  | error_log (e : E)
  | completed_log
  | wandb_finish
deriving DecidableEq

/-- `PolicyGradient.run` together with `wandb_context`: log the start
message, enter the wandb context (which logs in and opens a session only
when `config.run_name` is set), execute `train` once inside
`try/except Exception/finally` — an exception is caught at this single
boundary, logged, not retried and not re-raised — log the completion
message in the `finally` clause, and close the wandb session on leaving the
context.  `train_result` is the outcome of the external `train` call; the
model returns the ordered event trace together with the exception, if any,
that escapes to the caller. -/
def run (E : Type) (run_name : Bool) (train_result : Except E Unit) :
    List (RunEvent E) × Option E :=
  let body : List (RunEvent E) :=
    match train_result with
    | Except.ok _ => [RunEvent.train_run]
    | Except.error e => [RunEvent.train_run, RunEvent.error_log e]
  ([RunEvent.start_log] ++
    (if run_name then [RunEvent.wandb_setup] else []) ++
    body ++ [RunEvent.completed_log] ++
    (if run_name then [RunEvent.wandb_finish] else []),
   none)

/-- C9: when `train` raises, `run` catches the exception exactly once at
the outer boundary (a single error log), runs `train` exactly once (no
retry), still executes the final bookkeeping on that exit path (the
completion log, and the wandb teardown whenever a session was opened), and
re-raises nothing to the caller. -/
theorem run_catches_logs_no_retry {E : Type} [DecidableEq E]
    (run_name : Bool) (e : E) :
    (run E run_name (Except.error e)).2 = none ∧
    (run E run_name (Except.error e)).1.count (RunEvent.error_log e) = 1 ∧
    (run E run_name (Except.error e)).1.count RunEvent.train_run = 1 ∧
    RunEvent.completed_log ∈ (run E run_name (Except.error e)).1 ∧
    (run_name = true →
      RunEvent.wandb_finish ∈ (run E run_name (Except.error e)).1) := by
  cases run_name <;>
    simp [run, List.count_append, List.count_cons, List.count_singleton]

/-- C9 witness: a failing training loop with exception payload `7` and a
wandb session enabled. -/
theorem run_catches_logs_no_retry_witness :
    (run ℕ true (Except.error 7)).2 = none ∧
    (run ℕ true (Except.error 7)).1.count (RunEvent.error_log 7) = 1 ∧
    (run ℕ true (Except.error 7)).1.count RunEvent.train_run = 1 ∧
    RunEvent.completed_log ∈ (run ℕ true (Except.error 7)).1 ∧
    (true = true → RunEvent.wandb_finish ∈ (run ℕ true (Except.error 7)).1) :=
  run_catches_logs_no_retry true 7

end NLPProject
